import Mathlib

/-!
Verification of the multi-resolution schedule algorithm and the demand-driven
pipeline update protocol of this repository.

The repository slice under `src/` contains the test
`itkMultiResolutionPyramidImageFilterTest.cxx` and the header
`itkHistogramToTextureFeaturesFilter.h`; the implementations they exercise
(`itkMultiResolutionPyramidImageFilter` and the `ProcessObject`/`DataObject`
pipeline engine) are code of this repository that is not included in the
slice.  Following the specification, those parts are modelled here from the
spec's own description (sections 3, 4.2, 4.3, 4.4, 4.6, 6 and 7), and each
such definition carries a doc comment saying exactly what is modelled.
-/

/-! ## ScheduleBuilder (spec section 4.6) -/

/-- Modelled from the spec: the per-axis clamp used by every ScheduleBuilder
policy ("clamped to a minimum of 1 per axis"); the test computes the same
clamp with `if( schedule[k][j] == 0 ) schedule[k][j] = 1;`
(itkMultiResolutionPyramidImageFilterTest.cxx, lines 201-204). -/
def clampPos (f : Nat) : Nat :=
  if f = 0 then 1 else f

/-- Modelled from the spec: "level k factor on axis j = `startFactors[j] / 2^k`,
clamped to a minimum of 1 per axis" (section 4.6); the missing code is
`itkMultiResolutionPyramidImageFilter::SetStartingShrinkFactors`. -/
def levelFactor (start k : Nat) : Nat :=
  clampPos (start / 2 ^ k)

/-- Modelled from the spec: "By starting factors
`buildFromStartFactors(startFactors[numAxes], numLevels)`: level 0 =
startFactors; level k factor on axis j = `startFactors[j] / 2^k`, clamped to a
minimum of 1 per axis" (section 4.6). -/
def buildFromStartFactors (startFactors : List Nat) (numLevels : Nat) : List (List Nat) :=
  (List.range numLevels).map fun k => startFactors.map fun s => levelFactor s k

/-- Modelled from the spec: "By level count `buildFromLevelCount(numLevels,
numAxes)`: level 0 factor on axis j = `2^(numLevels-1)`; level k factor =
`level0Factor / 2^k`, clamped to a minimum of 1 per axis" (section 4.6); the
missing code is `itkMultiResolutionPyramidImageFilter::SetNumberOfLevels`. -/
def buildFromLevelCount (numLevels numAxes : Nat) : List (List Nat) :=
  buildFromStartFactors (List.replicate numAxes (2 ^ (numLevels - 1))) numLevels

/-- Modelled from the spec: "Explicit override `setSchedule(explicitTable)`:
caller-supplied table is accepted verbatim except that any non-positive entry
is clamped to 1 (never to a negative or zero factor)" (section 4.6); entries
are unsigned in the source (`ScheduleType` holds `unsigned int`), so a
non-positive entry is an entry equal to 0. -/
def setSchedule (table : List (List Nat)) : List (List Nat) :=
  table.map fun row => row.map clampPos

/-- Entry of a schedule at level `k`, axis `j` (0 when out of bounds). -/
def getEntry (s : List (List Nat)) (k j : Nat) : Nat :=
  (s.getD k []).getD j 0

/-- Modelled from the spec: the per-axis divisibility test between one level
and the next used by `isDownwardDivisible` (section 4.6): "each level's factor
evenly divides the previous (coarser-index, i.e., finer-resolution) level's
factor". -/
def rowDownwardDivisible (cur next : List Nat) : Bool :=
  (cur.zip next).all fun p => p.1 % p.2 == 0

/-- Modelled from the spec: "`isDownwardDivisible(schedule) -> bool`: true iff,
for every axis, each level's factor evenly divides the previous (coarser-index,
i.e., finer-resolution) level's factor" (section 4.6); the missing code is
`itkMultiResolutionPyramidImageFilter::IsScheduleDownwardDivisible`. -/
def isDownwardDivisible : List (List Nat) → Bool
  | r1 :: r2 :: rest => rowDownwardDivisible r1 r2 && isDownwardDivisible (r2 :: rest)
  | _ => true

/-- Every entry of the schedule is at least 1. -/
def scheduleGe1 (s : List (List Nat)) : Bool :=
  s.all fun row => row.all fun f => decide (1 ≤ f)

/-! ## Pipeline data model (spec sections 3, 4.1, 4.2) -/

/-- Modelled from the spec: "Region: an axis-aligned box over an N-dimensional
integer index space (origin index + extent per axis)" (section 3).  Each axis
carries its origin index and its non-negative extent. -/
structure Region where
  axes : List (Int × Nat)
deriving Repr, DecidableEq

/-- Modelled from the spec: `contains(outer, inner) -> bool` of RegionAlgebra
(section 4.1): the inner box lies inside the outer box on every axis. -/
def axisContains (o i : Int × Nat) : Bool :=
  decide (o.1 ≤ i.1) && decide (i.1 + (i.2 : Int) ≤ o.1 + (o.2 : Int))

/-- Modelled from the spec: region containment over all axes; regions of
different dimension are never comparable. -/
def Region.containsB (outer inner : Region) : Bool :=
  decide (outer.axes.length = inner.axes.length) &&
  (outer.axes.zip inner.axes).all fun p => axisContains p.1 p.2

/-- Modelled from the spec: "DataObject: holds three regions — BufferedRegion,
RequestedRegion, LargestPossibleRegion — plus a monotonically increasing
ModificationTime ... and a PipelineModificationTime recorded at the end of the
last successful update" (section 3). -/
structure DataObject where
  largest : Region
  requested : Region
  buffered : Region
  modTime : Nat
  pipelineMTime : Nat
deriving Repr, DecidableEq

/-- Modelled from the spec: the error taxonomy of section 7. -/
inductive PipelineError where
  | InvalidRegion
  | MissingInput
  | RegionOutsideBounds
  | UnknownFeature
  | Aborted
  | ListenerFailure
deriving Repr, DecidableEq

/-- Modelled from the spec: a single-input single-output ProcessObject
(section 3): one optional bound input DataObject (a root object that is
already buffered), the stage's own ModificationTime, and the one output
DataObject the stage owns. -/
structure Stage where
  input : Option DataObject
  modTime : Nat
  output : DataObject
deriving Repr, DecidableEq

/-- Modelled from the spec: "an output is considered up to date for a given
RequestedRegion iff its BufferedRegion contains that region AND its
PipelineModificationTime ≥ max(ModificationTime of the ProcessObject,
PipelineModificationTime of every input DataObject)" (section 3). -/
def isUpToDateFor (out : DataObject) (stageMTime : Nat) (inputs : List DataObject)
    (r : Region) : Bool :=
  out.buffered.containsB r &&
  decide (stageMTime ≤ out.pipelineMTime) &&
  inputs.all fun i => decide (i.pipelineMTime ≤ out.pipelineMTime)

/-- Result of one invocation of the update protocol: the outcome surfaced to
the caller, the post state, and whether the Execution step actually ran. -/
structure UpdateResult where
  outcome : Except PipelineError Unit
  stage : Stage
  executed : Bool
deriving Repr

/-- RegionPropagation records the requested region on the output slot. -/
def setRequested (s : Stage) (r : Region) : Stage :=
  { s with output := { s.output with requested := r } }

/-- Modelled from the spec: the Execution step of section 4.3 for an identity
stage: the output's buffer is produced over exactly the requested region and
"PipelineModificationTime is set to ... `max(own ModificationTime, max over
inputs of PipelineModificationTime)`". -/
def executeStage (s : Stage) (inp : DataObject) (r : Region) : Stage :=
  { s with output := { s.output with
      buffered := r,
      pipelineMTime := max s.modTime inp.pipelineMTime } }

/-- Modelled from the spec: the update protocol of section 4.3 for a
single-input single-output stage whose input, when bound, is a root
DataObject: RegionPropagation (identity policy, checking the request against
the input's LargestPossibleRegion and failing with `RegionOutsideBounds`
before any execution), then the StalenessCheck (skip to Done when up to
date), then Execution, which requires the input to be bound and fails with
`MissingInput` otherwise, publishing nothing. -/
def Stage.update (s : Stage) (r : Region) : UpdateResult :=
  match s.input with
  | none =>
    if isUpToDateFor (setRequested s r).output s.modTime [] r then
      ⟨.ok (), setRequested s r, false⟩
    else ⟨.error .MissingInput, setRequested s r, false⟩
  | some inp =>
    if inp.largest.containsB r then
      if isUpToDateFor (setRequested s r).output s.modTime [inp] r then
        ⟨.ok (), setRequested s r, false⟩
      else ⟨.ok (), executeStage (setRequested s r) inp r, true⟩
    else ⟨.error .RegionOutsideBounds, s, false⟩

/-- Modelled from the spec: "`requestUpdate(outputSlot)` runs ... with the
output's currently stored RequestedRegion" (section 4.4). -/
def requestUpdate (s : Stage) : UpdateResult :=
  Stage.update s s.output.requested

/-! ## Texture feature accessor (spec section 6, header in src) -/

/-- The texture feature names, translated from the `TextureFeature` enum of
`itkHistogramToTextureFeaturesFilter.h` (lines 42-53). -/
inductive TextureFeature where
  | Energy
  | Entropy
  | Correlation
  | InverseDifferenceMoment
  | Inertia
  | ClusterShade
  | ClusterProminence
  | HaralickCorrelation
  | InvalidFeatureName
deriving Repr, DecidableEq

/-- The eight named output accessors of the texture-features stage, translated
from the `Get...Output` accessors of `itkHistogramToTextureFeaturesFilter.h`;
the measurement type is left abstract. -/
structure TextureFeatureOutputs (α : Type) where
  energy : α
  entropy : α
  correlation : α
  inverseDifferenceMoment : α
  inertia : α
  clusterShade : α
  clusterProminence : α
  haralickCorrelation : α
deriving Repr, DecidableEq

/-- Modelled from the spec: "a stage may expose `getFeature(name) -> value` as
a convenience wrapper over named output accessors; `name` not in the known set
fails with `UnknownFeature`" (section 6); the missing code is
`HistogramToTextureFeaturesFilter::GetFeature`, declared at lines 249-251 of
the header in src. -/
def getFeature {α : Type} (o : TextureFeatureOutputs α) :
    TextureFeature → Except PipelineError α
  | .Energy => .ok o.energy
  | .Entropy => .ok o.entropy
  | .Correlation => .ok o.correlation
  | .InverseDifferenceMoment => .ok o.inverseDifferenceMoment
  | .Inertia => .ok o.inertia
  | .ClusterShade => .ok o.clusterShade
  | .ClusterProminence => .ok o.clusterProminence
  | .HaralickCorrelation => .ok o.haralickCorrelation
  | .InvalidFeatureName => .error .UnknownFeature

/-! ## Per-level output metadata (spec section 4.6, test lines 339-352) -/

/-- Modelled from the spec: the per-level output spacing of the multi-level
consumer ("subsampling by the row's per-axis factor", section 4.6); the test
checks `outputSpacing[j] == inputSpacing[j] * schedule[testLevel][j]`
(itkMultiResolutionPyramidImageFilterTest.cxx, lines 341-342).  Spacing is
modelled as exact rationals. -/
def levelOutputSpacing (inputSpacing : List Rat) (row : List Nat) : List Rat :=
  (inputSpacing.zip row).map fun p => p.1 * (p.2 : Rat)

/-- Modelled from the spec: the per-level output size of the multi-level
consumer; the test checks `sz = inputSize[j] / schedule[testLevel][j]; if sz
== 0 then sz = 1` (itkMultiResolutionPyramidImageFilterTest.cxx, lines
346-347). -/
def levelOutputSize (inputSize : List Nat) (row : List Nat) : List Nat :=
  (inputSize.zip row).map fun p => clampPos (p.1 / p.2)

/-! ## Concrete pipeline instances used by the witnesses -/

/-- A one-axis region of extent 4 starting at index 0. -/
def demoRegion : Region :=
  ⟨[(0, 4)]⟩

/-- A one-axis sub-region of `demoRegion`. -/
def demoSubRegion : Region :=
  ⟨[(1, 2)]⟩

/-- An empty one-axis region, used as a freshly created output buffer. -/
def demoEmptyRegion : Region :=
  ⟨[(0, 0)]⟩

/-- A root input DataObject, fully buffered over `demoRegion`. -/
def demoInput : DataObject :=
  ⟨demoRegion, demoRegion, demoRegion, 5, 5⟩

/-- A fresh output DataObject: nothing buffered yet, full region requested. -/
def demoFreshOutput : DataObject :=
  ⟨demoRegion, demoRegion, demoEmptyRegion, 0, 0⟩

/-- A bound stage that has never executed. -/
def demoStage : Stage :=
  ⟨some demoInput, 2, demoFreshOutput⟩

/-- The same stage with its required input unbound. -/
def demoUnboundStage : Stage :=
  ⟨none, 2, demoFreshOutput⟩

/-! ## Helper lemmas about the schedule definitions -/

theorem clampPos_eq_max (f : Nat) : clampPos f = max 1 f := by
  unfold clampPos
  split <;> omega

theorem one_le_clampPos (f : Nat) : 1 ≤ clampPos f := by
  unfold clampPos
  split <;> omega

theorem clampPos_mono {a b : Nat} (h : a ≤ b) : clampPos a ≤ clampPos b := by
  unfold clampPos
  split <;> split <;> omega

theorem clampPos_of_pos {f : Nat} (h : 1 ≤ f) : clampPos f = f := by
  unfold clampPos
  split <;> omega

theorem one_le_levelFactor (s k : Nat) : 1 ≤ levelFactor s k :=
  one_le_clampPos _

theorem levelFactor_succ_le (s k : Nat) : levelFactor s (k + 1) ≤ levelFactor s k := by
  unfold levelFactor
  apply clampPos_mono
  apply Nat.div_le_div_left
  · exact Nat.pow_le_pow_right (by norm_num) (Nat.le_succ k)
  · exact Nat.pos_pow_of_pos k (by norm_num)

theorem getD_map_lt {α β : Type} (f : α → β) (l : List α) (j : Nat) (d : α) (dg : β)
    (hj : j < l.length) : (l.map f).getD j dg = f (l.getD j d) := by
  induction l generalizing j with
  | nil => simp at hj
  | cons x xs ih =>
    cases j with
    | zero => simp
    | succ j =>
      simp only [List.map_cons, List.getD_cons_succ]
      exact ih j (by simpa using hj)

theorem getD_map_ge {α β : Type} (f : α → β) (l : List α) (j : Nat) (dg : β)
    (hj : l.length ≤ j) : (l.map f).getD j dg = dg := by
  apply List.getD_eq_default
  simpa using hj

theorem getD_range_map {α : Type} (g : Nat → α) (n k : Nat) (d : α) :
    ((List.range n).map g).getD k d = if k < n then g k else d := by
  split
  · rw [getD_map_lt g (List.range n) k 0 d (by simpa)]
    congr 1
    rw [List.getD_eq_getElem?_getD, List.getElem?_range (by simpa)]
    rfl
  · exact getD_map_ge g _ _ _ (by simp; omega)

theorem getD_replicate {α : Type} (n : Nat) (a : α) (j : Nat) (d : α) (hj : j < n) :
    (List.replicate n a).getD j d = a := by
  induction n generalizing j with
  | zero => omega
  | succ n ih =>
    cases j with
    | zero => simp [List.replicate]
    | succ j => simpa [List.replicate] using ih j (by omega)

theorem getEntry_build (sf : List Nat) (n k j : Nat) :
    getEntry (buildFromStartFactors sf n) k j =
      if k < n then
        (if j < sf.length then levelFactor (sf.getD j 0) k else 0)
      else 0 := by
  unfold getEntry buildFromStartFactors
  rw [getD_range_map]
  split
  · split
    · rw [getD_map_lt _ sf j 0 0 (by assumption)]
    · exact getD_map_ge _ sf j 0 (by omega)
  · simp

theorem scheduleGe1_build (sf : List Nat) (n : Nat) :
    scheduleGe1 (buildFromStartFactors sf n) = true := by
  simp only [scheduleGe1, buildFromStartFactors, List.all_eq_true]
  intro row hrow
  obtain ⟨k, _, rfl⟩ := List.mem_map.mp hrow
  intro f hf
  obtain ⟨f0, _, rfl⟩ := List.mem_map.mp hf
  simpa using one_le_levelFactor f0 k

theorem scheduleGe1_setSchedule (table : List (List Nat)) :
    scheduleGe1 (setSchedule table) = true := by
  simp only [scheduleGe1, setSchedule, List.all_eq_true]
  intro row hrow
  obtain ⟨r0, _, rfl⟩ := List.mem_map.mp hrow
  intro f hf
  obtain ⟨f0, _, rfl⟩ := List.mem_map.mp hf
  simpa using one_le_clampPos f0

theorem getEntry_build_succ_le (sf : List Nat) (n k j : Nat) :
    getEntry (buildFromStartFactors sf n) (k + 1) j ≤
      getEntry (buildFromStartFactors sf n) k j := by
  rw [getEntry_build, getEntry_build]
  by_cases h1 : k + 1 < n
  · rw [if_pos h1, if_pos (by omega : k < n)]
    by_cases h2 : j < sf.length
    · rw [if_pos h2, if_pos h2]
      exact levelFactor_succ_le _ _
    · rw [if_neg h2, if_neg h2]
  · rw [if_neg h1]
    exact Nat.zero_le _

theorem setSchedule_row (table : List (List Nat)) (k : Nat) :
    (setSchedule table).getD k [] = (table.getD k []).map clampPos := by
  unfold setSchedule
  by_cases hk : k < table.length
  · exact getD_map_lt _ table k [] [] hk
  · rw [getD_map_ge _ table k [] (by omega)]
    rw [List.getD_eq_default _ _ (by omega)]
    rfl

/-! ## Claim theorems for the ScheduleBuilder -/

/-- C1: for every `numLevels ≥ 1` and `numAxes ≥ 1`,
`buildFromLevelCount (numLevels, numAxes)` has level-0 factor `2^(numLevels-1)`
on every axis and level-`k` factor `2^(numLevels-1) / 2^k` clamped up to 1 on
every axis; in particular `buildFromLevelCount 3 3 = [[4,4,4],[2,2,2],[1,1,1]]`. -/
theorem buildFromLevelCount_spec (numLevels numAxes : Nat)
    (h1 : 1 ≤ numLevels) (h2 : 1 ≤ numAxes) :
    (∀ j, j < numAxes →
       getEntry (buildFromLevelCount numLevels numAxes) 0 j = 2 ^ (numLevels - 1)) ∧
    (∀ k j, k < numLevels → j < numAxes →
       getEntry (buildFromLevelCount numLevels numAxes) k j =
         max 1 (2 ^ (numLevels - 1) / 2 ^ k)) ∧
    buildFromLevelCount 3 3 = [[4, 4, 4], [2, 2, 2], [1, 1, 1]] := by
  refine ⟨?_, ?_, by decide⟩
  · intro j hj
    unfold buildFromLevelCount
    rw [getEntry_build, if_pos (by omega), if_pos (by simpa using hj),
      getD_replicate _ _ _ _ hj]
    unfold levelFactor
    rw [pow_zero, Nat.div_one]
    exact clampPos_of_pos Nat.one_le_two_pow
  · intro k j hk hj
    unfold buildFromLevelCount
    rw [getEntry_build, if_pos hk, if_pos (by simpa using hj),
      getD_replicate _ _ _ _ hj]
    unfold levelFactor
    exact clampPos_eq_max _

theorem buildFromLevelCount_spec_witness :
    buildFromLevelCount 3 3 = [[4, 4, 4], [2, 2, 2], [1, 1, 1]] ∧
    getEntry (buildFromLevelCount 3 3) 0 0 = 2 ^ (3 - 1) :=
  ⟨(buildFromLevelCount_spec 3 3 (by decide) (by decide)).2.2,
   (buildFromLevelCount_spec 3 3 (by decide) (by decide)).1 0 (by decide)⟩

/-- C2: for every vector of positive starting factors and every
`numLevels ≥ 1`, `buildFromStartFactors (startFactors, numLevels)` has the
level-0 row equal to `startFactors` and level-`k` factor on axis `j` equal to
`startFactors[j] / 2^k` clamped up to 1; in particular
`buildFromStartFactors [8,4,2] 4 = [[8,4,2],[4,2,1],[2,1,1],[1,1,1]]`. -/
theorem buildFromStartFactors_spec (startFactors : List Nat) (numLevels : Nat)
    (hpos : ∀ f ∈ startFactors, 1 ≤ f) (hn : 1 ≤ numLevels) :
    (buildFromStartFactors startFactors numLevels).getD 0 [] = startFactors ∧
    (∀ k j, k < numLevels → j < startFactors.length →
       getEntry (buildFromStartFactors startFactors numLevels) k j =
         max 1 (startFactors.getD j 0 / 2 ^ k)) ∧
    buildFromStartFactors [8, 4, 2] 4 =
      [[8, 4, 2], [4, 2, 1], [2, 1, 1], [1, 1, 1]] := by
  refine ⟨?_, ?_, by decide⟩
  · unfold buildFromStartFactors
    rw [getD_range_map, if_pos (by omega)]
    have hid : ∀ s ∈ startFactors, levelFactor s 0 = id s := by
      intro s hs
      unfold levelFactor
      rw [pow_zero, Nat.div_one]
      exact clampPos_of_pos (hpos s hs)
    rw [List.map_congr_left hid, List.map_id]
  · intro k j hk hj
    rw [getEntry_build, if_pos hk, if_pos hj]
    unfold levelFactor
    exact clampPos_eq_max _

theorem buildFromStartFactors_spec_witness :
    buildFromStartFactors [8, 4, 2] 4 =
      [[8, 4, 2], [4, 2, 1], [2, 1, 1], [1, 1, 1]] ∧
    (buildFromStartFactors [8, 4, 2] 4).getD 0 [] = [8, 4, 2] :=
  ⟨(buildFromStartFactors_spec [8, 4, 2] 4 (by decide) (by decide)).2.2,
   (buildFromStartFactors_spec [8, 4, 2] 4 (by decide) (by decide)).1⟩

/-- C3: `setSchedule` returns the caller's table with the shape preserved,
every non-positive (zero) entry replaced by 1, every returned entry at least
1, and every entry that was already at least 1 returned unchanged. -/
theorem setSchedule_roundtrip (table : List (List Nat)) :
    (setSchedule table).length = table.length ∧
    (∀ k, ((setSchedule table).getD k []).length = (table.getD k []).length) ∧
    (∀ k j, k < table.length → j < (table.getD k []).length →
       getEntry (setSchedule table) k j = max 1 (getEntry table k j) ∧
       1 ≤ getEntry (setSchedule table) k j ∧
       (1 ≤ getEntry table k j →
          getEntry (setSchedule table) k j = getEntry table k j)) := by
  refine ⟨by simp [setSchedule], fun k => by rw [setSchedule_row]; simp, ?_⟩
  intro k j hk hj
  have he : getEntry (setSchedule table) k j = clampPos (getEntry table k j) := by
    unfold getEntry
    rw [setSchedule_row]
    exact getD_map_lt _ _ j 0 0 hj
  refine ⟨by rw [he]; exact clampPos_eq_max _,
    by rw [he]; exact one_le_clampPos _,
    fun hge => by rw [he]; exact clampPos_of_pos hge⟩

theorem setSchedule_roundtrip_witness :
    getEntry (setSchedule [[0, 3], [2, 0]]) 0 0 = max 1 (getEntry [[0, 3], [2, 0]] 0 0) ∧
    1 ≤ getEntry (setSchedule [[0, 3], [2, 0]]) 0 0 :=
  ⟨((setSchedule_roundtrip [[0, 3], [2, 0]]).2.2 0 0 (by decide) (by decide)).1,
   ((setSchedule_roundtrip [[0, 3], [2, 0]]).2.2 0 0 (by decide) (by decide)).2.1⟩

theorem rowDownwardDivisible_iff (cur next : List Nat) :
    rowDownwardDivisible cur next = true ↔
      ∀ j, j < cur.length → j < next.length → next.getD j 0 ∣ cur.getD j 0 := by
  induction cur generalizing next with
  | nil => simp [rowDownwardDivisible]
  | cons c cs ih =>
    cases next with
    | nil => simp [rowDownwardDivisible]
    | cons x xs =>
      simp only [rowDownwardDivisible, List.zip_cons_cons, List.all_cons,
        Bool.and_eq_true]
      rw [show ((cs.zip xs).all fun p => p.1 % p.2 == 0) =
            rowDownwardDivisible cs xs from rfl]
      rw [ih xs]
      constructor
      · rintro ⟨h0, hrest⟩ j hj1 hj2
        cases j with
        | zero =>
          simp only [List.getD_cons_zero]
          exact Nat.dvd_of_mod_eq_zero (by simpa using h0)
        | succ j =>
          simp only [List.getD_cons_succ]
          exact hrest j (by simpa using hj1) (by simpa using hj2)
      · intro h
        refine ⟨?_, ?_⟩
        · have h0 := h 0 (by simp) (by simp)
          simp only [List.getD_cons_zero] at h0
          obtain ⟨m, rfl⟩ := h0
          simpa using Nat.mul_mod_right x m
        · intro j hj1 hj2
          have hj := h (j + 1) (by simpa using Nat.succ_lt_succ hj1)
            (by simpa using Nat.succ_lt_succ hj2)
          simpa using hj

theorem isDownwardDivisible_iff (s : List (List Nat)) :
    isDownwardDivisible s = true ↔
      ∀ k j, k + 1 < s.length → j < (s.getD k []).length →
        j < (s.getD (k + 1) []).length →
        getEntry s (k + 1) j ∣ getEntry s k j := by
  induction s with
  | nil => simp [isDownwardDivisible]
  | cons r1 rest ih =>
    cases rest with
    | nil =>
      simp only [isDownwardDivisible, List.length_cons, List.length_nil, true_iff]
      intro k j hk
      omega
    | cons r2 rest' =>
      show (rowDownwardDivisible r1 r2 && isDownwardDivisible (r2 :: rest')) = true ↔ _
      rw [Bool.and_eq_true, rowDownwardDivisible_iff, ih]
      simp only [getEntry]
      constructor
      · rintro ⟨h0, hrest⟩ k j hk hj1 hj2
        cases k with
        | zero =>
          simp only [List.getD_cons_zero, List.getD_cons_succ] at hj1 hj2 ⊢
          exact h0 j hj1 hj2
        | succ k =>
          simp only [List.getD_cons_succ] at hj1 hj2 ⊢
          exact hrest k j (by simpa using hk) hj1 hj2
      · intro h
        constructor
        · intro j hj1 hj2
          have h0 := h 0 j (by simp) (by simpa using hj1) (by simpa using hj2)
          simpa using h0
        · intro k j hk hj1 hj2
          have hs := h (k + 1) j (by simpa using Nat.succ_lt_succ hk)
            (by simpa using hj1) (by simpa using hj2)
          simpa using hs

/-- C4: `isDownwardDivisible` returns true iff, for every axis and every pair
of successive levels, the factor at the deeper level evenly divides the factor
at the previous level; in particular it returns true for the table
`[[8,4,2],[4,2,1],[2,1,1],[1,1,1]]`. -/
theorem isDownwardDivisible_spec (schedule : List (List Nat)) :
    (isDownwardDivisible schedule = true ↔
      ∀ k j, k + 1 < schedule.length → j < (schedule.getD k []).length →
        j < (schedule.getD (k + 1) []).length →
        getEntry schedule (k + 1) j ∣ getEntry schedule k j) ∧
    isDownwardDivisible [[8, 4, 2], [4, 2, 1], [2, 1, 1], [1, 1, 1]] = true :=
  ⟨isDownwardDivisible_iff schedule, by decide⟩

theorem isDownwardDivisible_spec_witness :
    isDownwardDivisible [[8, 4, 2], [4, 2, 1], [2, 1, 1], [1, 1, 1]] = true :=
  (isDownwardDivisible_spec [[8, 4, 2], [4, 2, 1], [2, 1, 1], [1, 1, 1]]).2

/-- C5 counterexample: a schedule stored through `setSchedule` does not have
to be monotonically non-increasing across levels: storing the explicit table
`[[1],[2]]` keeps the increasing factors, because the explicit-override policy
only clamps non-positive entries. -/
theorem setSchedule_monotone_counterexample :
    ¬ (getEntry (setSchedule [[1], [2]]) 1 0 ≤ getEntry (setSchedule [[1], [2]]) 0 0) := by
  decide

/-- C5 (amended): schedules built by level count or from starting factors are
monotonically non-increasing across levels on every axis and have every factor
at least 1; a schedule stored through `setSchedule` has every factor at least
1, but is monotonically non-increasing only if the caller's table was. -/
theorem schedule_invariant_amended (numLevels numAxes : Nat)
    (startFactors : List Nat) (table : List (List Nat)) :
    scheduleGe1 (buildFromLevelCount numLevels numAxes) = true ∧
    (∀ k j, getEntry (buildFromLevelCount numLevels numAxes) (k + 1) j ≤
       getEntry (buildFromLevelCount numLevels numAxes) k j) ∧
    scheduleGe1 (buildFromStartFactors startFactors numLevels) = true ∧
    (∀ k j, getEntry (buildFromStartFactors startFactors numLevels) (k + 1) j ≤
       getEntry (buildFromStartFactors startFactors numLevels) k j) ∧
    scheduleGe1 (setSchedule table) = true :=
  ⟨scheduleGe1_build _ _, fun _ _ => getEntry_build_succ_le _ _ _ _,
   scheduleGe1_build _ _, fun _ _ => getEntry_build_succ_le _ _ _ _,
   scheduleGe1_setSchedule _⟩

/-! ## Region algebra lemmas -/

theorem axisContains_trans {a b c : Int × Nat}
    (hab : axisContains a b = true) (hbc : axisContains b c = true) :
    axisContains a c = true := by
  simp only [axisContains, Bool.and_eq_true, decide_eq_true_eq] at hab hbc ⊢
  omega

theorem axisContains_antisymm {a b : Int × Nat}
    (hab : axisContains a b = true) (hba : axisContains b a = true) : a = b := by
  obtain ⟨a1, a2⟩ := a
  obtain ⟨b1, b2⟩ := b
  simp only [axisContains, Bool.and_eq_true, decide_eq_true_eq] at hab hba
  have h1 : a1 = b1 := by omega
  have h2 : a2 = b2 := by omega
  rw [h1, h2]

theorem zipContains_trans :
    ∀ (as bs cs : List (Int × Nat)), as.length = bs.length → bs.length = cs.length →
      ((as.zip bs).all fun p => axisContains p.1 p.2) = true →
      ((bs.zip cs).all fun p => axisContains p.1 p.2) = true →
      ((as.zip cs).all fun p => axisContains p.1 p.2) = true := by
  intro as
  induction as with
  | nil => intro bs cs _ _ _ _; simp
  | cons a as ih =>
    intro bs cs h1 h2 hab hbc
    cases bs with
    | nil => simp at h1
    | cons b bs =>
      cases cs with
      | nil => simp at h2
      | cons c cs =>
        simp only [List.zip_cons_cons, List.all_cons, Bool.and_eq_true] at hab hbc ⊢
        exact ⟨axisContains_trans hab.1 hbc.1,
          ih bs cs (by simpa using h1) (by simpa using h2) hab.2 hbc.2⟩

theorem zipContains_antisymm :
    ∀ (as bs : List (Int × Nat)), as.length = bs.length →
      ((as.zip bs).all fun p => axisContains p.1 p.2) = true →
      ((bs.zip as).all fun p => axisContains p.1 p.2) = true →
      as = bs := by
  intro as
  induction as with
  | nil =>
    intro bs h _ _
    cases bs with
    | nil => rfl
    | cons b bs => simp at h
  | cons a as ih =>
    intro bs h hab hba
    cases bs with
    | nil => simp at h
    | cons b bs =>
      simp only [List.zip_cons_cons, List.all_cons, Bool.and_eq_true] at hab hba
      rw [axisContains_antisymm hab.1 hba.1,
        ih bs (by simpa using h) hab.2 hba.2]

theorem Region.containsB_trans {a b c : Region} (hab : a.containsB b = true)
    (hbc : b.containsB c = true) : a.containsB c = true := by
  simp only [Region.containsB, Bool.and_eq_true, decide_eq_true_eq] at hab hbc ⊢
  exact ⟨hab.1.trans hbc.1, zipContains_trans _ _ _ hab.1 hbc.1 hab.2 hbc.2⟩

theorem Region.containsB_antisymm {a b : Region} (hab : a.containsB b = true)
    (hba : b.containsB a = true) : a = b := by
  obtain ⟨as⟩ := a
  obtain ⟨bs⟩ := b
  simp only [Region.containsB, Bool.and_eq_true, decide_eq_true_eq] at hab hba
  exact congrArg Region.mk (zipContains_antisymm as bs hab.1 hab.2 hba.2)

/-! ## Update protocol lemmas -/

theorem isUpToDateFor_setRequested (s : Stage) (r r' : Region) (ms : Nat)
    (ins : List DataObject) :
    isUpToDateFor (setRequested s r).output ms ins r' =
      isUpToDateFor s.output ms ins r' := by
  simp [setRequested, isUpToDateFor]

theorem isUpToDateFor_one_iff (out : DataObject) (ms : Nat) (inp : DataObject)
    (r : Region) :
    isUpToDateFor out ms [inp] r = true ↔
      out.buffered.containsB r = true ∧ ms ≤ out.pipelineMTime ∧
        inp.pipelineMTime ≤ out.pipelineMTime := by
  simp [isUpToDateFor, and_assoc]

theorem Stage.update_some (inp : DataObject) (smt : Nat) (sout : DataObject)
    (r : Region) :
    Stage.update ⟨some inp, smt, sout⟩ r =
      if inp.largest.containsB r then
        if isUpToDateFor (setRequested ⟨some inp, smt, sout⟩ r).output smt [inp] r then
          ⟨.ok (), setRequested ⟨some inp, smt, sout⟩ r, false⟩
        else ⟨.ok (), executeStage (setRequested ⟨some inp, smt, sout⟩ r) inp r, true⟩
      else ⟨.error .RegionOutsideBounds, ⟨some inp, smt, sout⟩, false⟩ := rfl

/-! ## Claim theorems for the update protocol -/

/-- C6: for a single-input single-output stage whose output's RequestedRegion
equals its full LargestPossibleRegion, one successful call to the update
protocol leaves the output's BufferedRegion equal to its
LargestPossibleRegion and its PipelineModificationTime at least the input's
PipelineModificationTime. -/
theorem update_full_region_spec (s : Stage) (inp : DataObject)
    (hin : s.input = some inp)
    (hreq : s.output.requested = s.output.largest)
    (hlarge : inp.largest.containsB s.output.largest = true)
    (hbuf : s.output.largest.containsB s.output.buffered = true) :
    (requestUpdate s).outcome = .ok () ∧
    (requestUpdate s).stage.output.buffered =
      (requestUpdate s).stage.output.largest ∧
    inp.pipelineMTime ≤ (requestUpdate s).stage.output.pipelineMTime := by
  obtain ⟨si, smt, sout⟩ := s
  simp only at hin hreq hlarge hbuf
  subst hin
  simp only [requestUpdate, Stage.update, hreq, if_pos hlarge,
    isUpToDateFor_setRequested]
  by_cases hupd : isUpToDateFor sout smt [inp] sout.largest = true
  · rw [if_pos hupd]
    rw [isUpToDateFor_one_iff] at hupd
    exact ⟨rfl, Region.containsB_antisymm hupd.1 hbuf, hupd.2.2⟩
  · rw [if_neg hupd]
    exact ⟨rfl, rfl, le_max_right _ _⟩

theorem update_full_region_spec_witness :
    (requestUpdate demoStage).outcome = .ok () ∧
    (requestUpdate demoStage).stage.output.buffered =
      (requestUpdate demoStage).stage.output.largest ∧
    demoInput.pipelineMTime ≤ (requestUpdate demoStage).stage.output.pipelineMTime :=
  update_full_region_spec demoStage demoInput rfl rfl (by decide) (by decide)

/-- C7: whenever the update protocol fails (for any error of the taxonomy,
including `MissingInput` from an unbound required input), the error is
surfaced to the caller, the Execution step never ran, the output's
BufferedRegion and PipelineModificationTime are exactly as before the failed
call, and a retry after binding the missing input behaves, in every
observable component, as if the failed call never happened. -/
theorem update_failure_preserves_output (s : Stage) (r : Region)
    (e : PipelineError) (hfail : (Stage.update s r).outcome = .error e) :
    (Stage.update s r).stage.output.buffered = s.output.buffered ∧
    (Stage.update s r).stage.output.pipelineMTime = s.output.pipelineMTime ∧
    (Stage.update s r).executed = false ∧
    (∀ inp, s.input = none →
       (Stage.update { (Stage.update s r).stage with input := some inp } r).outcome =
         (Stage.update { s with input := some inp } r).outcome ∧
       (Stage.update { (Stage.update s r).stage with input := some inp } r).executed =
         (Stage.update { s with input := some inp } r).executed ∧
       (Stage.update { (Stage.update s r).stage with input := some inp } r).stage.output.buffered =
         (Stage.update { s with input := some inp } r).stage.output.buffered ∧
       (Stage.update { (Stage.update s r).stage with input := some inp } r).stage.output.pipelineMTime =
         (Stage.update { s with input := some inp } r).stage.output.pipelineMTime) := by
  obtain ⟨si, smt, sout⟩ := s
  cases si with
  | none =>
    have hstage : (Stage.update ⟨none, smt, sout⟩ r).stage =
        setRequested ⟨none, smt, sout⟩ r := by
      simp only [Stage.update]
      split
      · rfl
      · rfl
    refine ⟨by rw [hstage]; rfl, by rw [hstage]; rfl, ?_, ?_⟩
    · simp only [Stage.update]
      split
      · rfl
      · rfl
    · intro inp _
      rw [hstage]
      simp only [Stage.update, setRequested]
      by_cases hc : inp.largest.containsB r = true
      · rw [if_pos hc, if_pos hc]
        exact ⟨rfl, rfl, rfl, rfl⟩
      · rw [if_neg hc, if_neg hc]
        exact ⟨rfl, rfl, rfl, rfl⟩
  | some inp0 =>
    simp only [Stage.update] at hfail ⊢
    by_cases hc : inp0.largest.containsB r = true
    · rw [if_pos hc] at hfail
      by_cases hupd : isUpToDateFor (setRequested ⟨some inp0, smt, sout⟩ r).output
          smt [inp0] r = true
      · rw [if_pos hupd] at hfail
        exact absurd hfail (by simp)
      · rw [if_neg hupd] at hfail
        exact absurd hfail (by simp)
    · rw [if_neg hc]
      refine ⟨rfl, rfl, rfl, ?_⟩
      intro inp hnone
      exact absurd hnone (by simp)

theorem update_failure_preserves_output_witness :
    (Stage.update demoUnboundStage demoRegion).stage.output.buffered =
      demoUnboundStage.output.buffered ∧
    (Stage.update demoUnboundStage demoRegion).stage.output.pipelineMTime =
      demoUnboundStage.output.pipelineMTime ∧
    (Stage.update demoUnboundStage demoRegion).executed = false :=
  ⟨(update_failure_preserves_output demoUnboundStage demoRegion .MissingInput rfl).1,
   (update_failure_preserves_output demoUnboundStage demoRegion .MissingInput rfl).2.1,
   (update_failure_preserves_output demoUnboundStage demoRegion .MissingInput rfl).2.2.1⟩

/-- C8: for regions `r1` contained in `r2`, requesting an update for `r1`
after a successful update for `r2`, with no intervening configuration or
input change, performs no re-execution (the StalenessCheck short-circuits to
Done with a successful outcome) and leaves the output's BufferedRegion and
PipelineModificationTime unchanged. -/
theorem update_subregion_noop (s : Stage) (inp : DataObject) (r1 r2 : Region)
    (hin : s.input = some inp)
    (hsub : r2.containsB r1 = true)
    (hok : (Stage.update s r2).outcome = .ok ()) :
    (Stage.update (Stage.update s r2).stage r1).executed = false ∧
    (Stage.update (Stage.update s r2).stage r1).outcome = .ok () ∧
    (Stage.update (Stage.update s r2).stage r1).stage.output.buffered =
      (Stage.update s r2).stage.output.buffered ∧
    (Stage.update (Stage.update s r2).stage r1).stage.output.pipelineMTime =
      (Stage.update s r2).stage.output.pipelineMTime := by
  obtain ⟨si, smt, sout⟩ := s
  simp only at hin
  subst hin
  rw [Stage.update_some] at hok
  by_cases hc2 : inp.largest.containsB r2 = true
  · have hc1 : inp.largest.containsB r1 = true := Region.containsB_trans hc2 hsub
    rw [if_pos hc2] at hok
    by_cases hupd : isUpToDateFor (setRequested ⟨some inp, smt, sout⟩ r2).output
        smt [inp] r2 = true
    · have h1 : Stage.update ⟨some inp, smt, sout⟩ r2 =
          ⟨.ok (), ⟨some inp, smt, { sout with requested := r2 }⟩, false⟩ := by
        rw [Stage.update_some, if_pos hc2, if_pos hupd]
        rfl
      rw [isUpToDateFor_setRequested, isUpToDateFor_one_iff] at hupd
      have hupd1 : isUpToDateFor
          (setRequested ⟨some inp, smt, { sout with requested := r2 }⟩ r1).output
          smt [inp] r1 = true := by
        rw [isUpToDateFor_setRequested, isUpToDateFor_one_iff]
        exact ⟨Region.containsB_trans hupd.1 hsub, hupd.2.1, hupd.2.2⟩
      simp only [h1]
      rw [Stage.update_some, if_pos hc1, if_pos hupd1]
      exact ⟨rfl, rfl, rfl, rfl⟩
    · have h1 : Stage.update ⟨some inp, smt, sout⟩ r2 =
          ⟨.ok (), ⟨some inp, smt,
            { sout with
                requested := r2,
                buffered := r2,
                pipelineMTime := max smt inp.pipelineMTime }⟩, true⟩ := by
        rw [Stage.update_some, if_pos hc2, if_neg hupd]
        rfl
      have hupd1 : isUpToDateFor
          (setRequested ⟨some inp, smt,
            { sout with
                requested := r2,
                buffered := r2,
                pipelineMTime := max smt inp.pipelineMTime }⟩ r1).output
          smt [inp] r1 = true := by
        rw [isUpToDateFor_setRequested, isUpToDateFor_one_iff]
        exact ⟨hsub, le_max_left _ _, le_max_right _ _⟩
      simp only [h1]
      rw [Stage.update_some, if_pos hc1, if_pos hupd1]
      exact ⟨rfl, rfl, rfl, rfl⟩
  · rw [if_neg hc2] at hok
    exact absurd hok (by simp)

theorem update_subregion_noop_witness :
    (Stage.update (Stage.update demoStage demoRegion).stage demoSubRegion).executed = false ∧
    (Stage.update (Stage.update demoStage demoRegion).stage demoSubRegion).outcome = .ok () ∧
    (Stage.update (Stage.update demoStage demoRegion).stage demoSubRegion).stage.output.buffered =
      (Stage.update demoStage demoRegion).stage.output.buffered ∧
    (Stage.update (Stage.update demoStage demoRegion).stage demoSubRegion).stage.output.pipelineMTime =
      (Stage.update demoStage demoRegion).stage.output.pipelineMTime :=
  update_subregion_noop demoStage demoInput demoSubRegion demoRegion rfl
    (by decide) rfl

/-! ## Claim theorem for the feature accessor -/

/-- C9: `getFeature` returns, for each known texture feature name, the value
of the corresponding named output accessor, and fails with `UnknownFeature`
for a name outside the known set. -/
theorem getFeature_spec {α : Type} (o : TextureFeatureOutputs α) :
    getFeature o .Energy = .ok o.energy ∧
    getFeature o .Entropy = .ok o.entropy ∧
    getFeature o .Correlation = .ok o.correlation ∧
    getFeature o .InverseDifferenceMoment = .ok o.inverseDifferenceMoment ∧
    getFeature o .Inertia = .ok o.inertia ∧
    getFeature o .ClusterShade = .ok o.clusterShade ∧
    getFeature o .ClusterProminence = .ok o.clusterProminence ∧
    getFeature o .HaralickCorrelation = .ok o.haralickCorrelation ∧
    (∀ f : TextureFeature, f ≠ .InvalidFeatureName → ∃ v, getFeature o f = .ok v) ∧
    getFeature o .InvalidFeatureName = .error .UnknownFeature := by
  refine ⟨rfl, rfl, rfl, rfl, rfl, rfl, rfl, rfl, ?_, rfl⟩
  intro f hf
  cases f
  case InvalidFeatureName => exact absurd rfl hf
  all_goals exact ⟨_, rfl⟩

theorem getFeature_spec_witness :
    getFeature (⟨1, 2, 3, 4, 5, 6, 7, 8⟩ : TextureFeatureOutputs Nat) .Energy = .ok 1 ∧
    getFeature (⟨1, 2, 3, 4, 5, 6, 7, 8⟩ : TextureFeatureOutputs Nat) .InvalidFeatureName =
      .error .UnknownFeature :=
  ⟨(getFeature_spec ⟨1, 2, 3, 4, 5, 6, 7, 8⟩).1,
   (getFeature_spec ⟨1, 2, 3, 4, 5, 6, 7, 8⟩).2.2.2.2.2.2.2.2.2⟩

/-! ## Claim theorem for the per-level output metadata -/

theorem getD_zip_map {α β γ : Type} (f : α × β → γ) :
    ∀ (l1 : List α) (l2 : List β) (j : Nat) (d1 : α) (d2 : β) (dg : γ),
      j < l1.length → j < l2.length →
      ((l1.zip l2).map f).getD j dg = f (l1.getD j d1, l2.getD j d2) := by
  intro l1
  induction l1 with
  | nil => intro l2 j d1 d2 dg h1 _; simp at h1
  | cons x xs ih =>
    intro l2 j d1 d2 dg h1 h2
    cases l2 with
    | nil => simp at h2
    | cons y ys =>
      cases j with
      | zero => simp
      | succ j =>
        simp only [List.zip_cons_cons, List.map_cons, List.getD_cons_succ]
        exact ih ys j d1 d2 dg (by simpa using h1) (by simpa using h2)

/-- C10: for pyramid level `k` and axis `j`, the level's output spacing equals
the input spacing times the schedule factor `schedule[k][j]`, and the level's
output size equals the input size integer-divided by `schedule[k][j]`, clamped
up to a minimum of 1 when the quotient is 0. -/
theorem levelOutput_metadata (inputSpacing : List Rat) (inputSize : List Nat)
    (schedule : List (List Nat)) (k j : Nat)
    (hj1 : j < inputSpacing.length) (hj2 : j < inputSize.length)
    (hj3 : j < (schedule.getD k []).length) :
    (levelOutputSpacing inputSpacing (schedule.getD k [])).getD j 0 =
      inputSpacing.getD j 0 * (getEntry schedule k j : Rat) ∧
    (levelOutputSize inputSize (schedule.getD k [])).getD j 0 =
      max 1 (inputSize.getD j 0 / getEntry schedule k j) := by
  constructor
  · unfold levelOutputSpacing
    rw [getD_zip_map _ inputSpacing _ j 0 0 0 hj1 hj3]
    rfl
  · unfold levelOutputSize
    rw [getD_zip_map _ inputSize _ j 0 0 0 hj2 hj3]
    exact clampPos_eq_max _

theorem levelOutput_metadata_witness :
    (levelOutputSpacing [1/2, 27/10, 15/2]
        ((buildFromStartFactors [8, 4, 2] 4).getD 1 [])).getD 1 0 =
      ([1/2, 27/10, 15/2] : List Rat).getD 1 0 *
        (getEntry (buildFromStartFactors [8, 4, 2] 4) 1 1 : Rat) ∧
    (levelOutputSize [128, 132, 48]
        ((buildFromStartFactors [8, 4, 2] 4).getD 1 [])).getD 1 0 =
      max 1 (([128, 132, 48] : List Nat).getD 1 0 /
        getEntry (buildFromStartFactors [8, 4, 2] 4) 1 1) :=
  levelOutput_metadata [1/2, 27/10, 15/2] [128, 132, 48]
    (buildFromStartFactors [8, 4, 2] 4) 1 1 (by decide) (by decide) (by decide)
